import Mathlib

/-!
Shallow embedding of the SeirChain triad ledger core (the `seirchain` Python
package) together with proofs about its Graph Store, Mining Engine and
Transaction Pool behaviour.

Conventions used throughout the embedding:
* Python numbers (depths, nonces, monetary amounts, timestamps) are modelled
  as `Int`; the claims under study only compare, add and subtract them.
* SHA-256 is modelled as an abstract parameter `sha : String → String`; the
  claims under study concern which fields feed the hash, never the digest
  function itself.
* Python dictionaries keyed by strings are modelled as association lists with
  Python's dict semantics (update-in-place for an existing key, append for a
  new key).
* Mutating methods become functions returning the new value, paired with the
  method's return value when it has one.
-/

namespace SeirChain

/-- Python's `str.startswith`, modelled on character lists. -/
def pyStartswith (s pre : String) : Bool :=
  List.isPrefixOf pre.data s.data

/-- Python's `'0' * d`: the difficulty target used by the ledger and miner. -/
def zeros (d : Nat) : String :=
  String.mk (List.replicate d '0')

/-- Number of leading `'0'` characters of a string (the spec's
"leading-zero-hex-digit count"). -/
def leadingZeroCount (s : String) : Nat :=
  (s.data.takeWhile (fun c => c == '0')).length

/-- `seirchain.data_types.transaction_node.TransactionNode`: the transaction
record carried inside a Triad.  `hash` is the value the Python constructor
stored in `self.hash`. -/
structure TransactionNode where
  sender_address : String
  receiver_address : String
  amount : Int
  fee : Int
  timestamp : Int
  hash : String
  signature : Option String
deriving Repr, DecidableEq

/-- `seirchain.data_types.triad.Triad`: field set of the data-type used by the
Graph Store (`data_types/triangular_ledger.py`). -/
structure Triad where
  triad_id : String
  depth : Int
  parent_hashes : List String
  timestamp : Int
  transactions : List TransactionNode
  nonce : Int
  difficulty : Int
  miner_address : String
  hash : String
  child_hashes : List String
deriving Repr, DecidableEq

/-- `Triad.MAX_CHILD_CAPACITY` (class constant in `data_types/triad.py`). -/
def TRIAD_MAX_CHILD_CAPACITY : Nat := 3

/-- A JSON string literal (escaping is irrelevant to the claims studied). -/
def jsonStr (s : String) : String := "\"" ++ s ++ "\""

/-- `json.dumps` of a list of strings (`sort_keys` has no effect on a list). -/
def jsonStringList (l : List String) : String :=
  "[" ++ String.intercalate ", " (l.map jsonStr) ++ "]"

/-- `json.dumps` of an optional string (`None` becomes `null`). -/
def jsonOptStr : Option String → String
  | none => "null"
  | some s => jsonStr s

/-- `TransactionNode.to_dict()` rendered by `json.dumps(..., sort_keys=True)`:
keys in alphabetical order (amount, fee, hash, receiver_address,
sender_address, signature, timestamp). -/
def txToDictString (tx : TransactionNode) : String :=
  "\x7b\"amount\": " ++ toString tx.amount ++
  ", \"fee\": " ++ toString tx.fee ++
  ", \"hash\": " ++ jsonStr tx.hash ++
  ", \"receiver_address\": " ++ jsonStr tx.receiver_address ++
  ", \"sender_address\": " ++ jsonStr tx.sender_address ++
  ", \"signature\": " ++ jsonOptStr tx.signature ++
  ", \"timestamp\": " ++ toString tx.timestamp ++ "\x7d"

/-- The sort key `lambda x: x.get('tx_id', '')` of `Triad.calculate_hash`:
`TransactionNode.to_dict()` produces no `tx_id` key, so every dictionary gets
the default key `""`. -/
def txSortKey (_ : String) : String := ""

/-- `sorted(transactions_data, key=lambda x: x.get('tx_id', ''))`
(Python's sort is stable, so with all-equal keys it keeps the input order). -/
def sortTxDicts (l : List String) : List String :=
  List.insertionSort (fun a b => txSortKey a ≤ txSortKey b) l

/-- The f-string assembled by `Triad.calculate_hash`; it reads `triad_id`,
`depth`, `parent_hashes`, `timestamp`, `transactions`, `nonce`, `difficulty`
and `miner_address`, and nothing else. -/
def triadString (t : Triad) : String :=
  t.triad_id ++ toString t.depth ++ jsonStringList t.parent_hashes ++
  toString t.timestamp ++
  ("[" ++ String.intercalate ", " (sortTxDicts (t.transactions.map txToDictString)) ++ "]") ++
  toString t.nonce ++ toString t.difficulty ++ t.miner_address

/-- `Triad.calculate_hash`, with the digest function abstract. -/
def calculateHash (sha : String → String) (t : Triad) : String :=
  sha (triadString t)

/-- `Triad.__init__`: sorts `parent_hashes` ("Ensure consistent hashing") and
computes the hash when `current_hash` is not supplied. -/
def mkTriad (sha : String → String) (triad_id : String) (depth : Int)
    (parent_hashes : List String) (transactions : List TransactionNode)
    (nonce : Int) (difficulty : Int) (miner_address : String)
    (timestamp : Int) (current_hash : Option String)
    (child_hashes : Option (List String)) : Triad :=
  let base : Triad :=
    { triad_id := triad_id
      depth := depth
      parent_hashes := List.insertionSort (fun a b : String => a ≤ b) parent_hashes
      timestamp := timestamp
      transactions := transactions
      nonce := nonce
      difficulty := difficulty
      miner_address := miner_address
      hash := ""
      child_hashes := child_hashes.getD [] }
  { base with hash := current_hash.getD (calculateHash sha base) }

/-- `Triad.add_child_hash`: appends when the hash is new and capacity allows;
returns the updated triad together with the method's boolean result. -/
def addChildHash (t : Triad) (child_hash : String) : Triad × Bool :=
  if child_hash ∉ t.child_hashes ∧ t.child_hashes.length < TRIAD_MAX_CHILD_CAPACITY then
    ({ t with child_hashes := t.child_hashes ++ [child_hash] }, true)
  else
    (t, false)

/-- `Triad.is_full`. -/
def Triad.isFull (t : Triad) : Bool :=
  TRIAD_MAX_CHILD_CAPACITY ≤ t.child_hashes.length

/-- The configuration values consumed by the ledger and miner.  `DIFFICULTY`,
`MAX_DEPTH`, `MINING_REWARD` and `TRANSACTION_FEE` come from
`seirchain/config.py`.  Modelled from the spec: `MAX_CHILD_CAPACITY` (fixed at
3) and `MAX_TRANSACTIONS_PER_TRIAD`, which `add_triad` and the miner read from
the config singleton but which no module under `src` assigns; §6 of the spec
lists them among the parameters consumed from the environment collaborator. -/
structure Config where
  DIFFICULTY : Nat
  MAX_DEPTH : Int
  MINING_REWARD : Int
  TRANSACTION_FEE : Int
  MAX_CHILD_CAPACITY : Nat
  MAX_TRANSACTIONS_PER_TRIAD : Nat
deriving Repr, DecidableEq

/-- A wallet entry of `seirchain.data_types.wallets.Wallets`:
`{"name": ..., "balance": ...}`. -/
structure WalletData where
  name : String
  balance : Int
deriving Repr, DecidableEq

/-- The `Wallets.wallets` dictionary (`wallet_id -> {name, balance}`). -/
structure Wallets where
  wallets : List (String × WalletData)
deriving Repr, DecidableEq

/-- Dictionary lookup (`dict.get`). -/
def dictFind {α : Type} (l : List (String × α)) (k : String) : Option α :=
  (l.find? (fun p => p.1 == k)).map (·.2)

/-- Python dict assignment: update in place when the key exists, append
otherwise. -/
def dictSet {α : Type} (l : List (String × α)) (k : String) (v : α) :
    List (String × α) :=
  if l.any (fun p => p.1 == k) then
    l.map (fun p => if p.1 == k then (k, v) else p)
  else
    l ++ [(k, v)]

/-- `Wallets.add_funds`: credits an existing wallet; returns the updated
wallets and the method's boolean result. -/
def Wallets.addFunds (w : Wallets) (wallet_id : String) (amount : Int) :
    Wallets × Bool :=
  match dictFind w.wallets wallet_id with
  | some d =>
      (⟨dictSet w.wallets wallet_id { d with balance := d.balance + amount }⟩, true)
  | none => (w, false)

/-- `Wallets.deduct_funds`: debits an existing wallet with a sufficient
balance. -/
def Wallets.deductFunds (w : Wallets) (wallet_id : String) (amount : Int) :
    Wallets × Bool :=
  match dictFind w.wallets wallet_id with
  | some d =>
      if amount ≤ d.balance then
        (⟨dictSet w.wallets wallet_id { d with balance := d.balance - amount }⟩, true)
      else (w, false)
  | none => (w, false)

/-- `Wallets.transfer_funds`: deducts `amount + fee` from the sender, credits
`amount` to the recipient, reverting the deduction when the credit fails.
There is no special case for any sender address. -/
def Wallets.transferFunds (w : Wallets) (sender_id recipient_id : String)
    (amount fee : Int) : Wallets × Bool :=
  if sender_id == recipient_id then (w, false)
  else
    let total := amount + fee
    match w.deductFunds sender_id total with
    | (w1, true) =>
        match w1.addFunds recipient_id amount with
        | (w2, true) => (w2, true)
        | (w2, false) => ((w2.addFunds sender_id total).1, false)
    | (w1, false) => (w1, false)

/-- State of `seirchain.data_types.triangular_ledger.TriangularLedger`.
`triads` is the hash-keyed dictionary of stored triads (Python stores each as
`to_dict()` output and re-reads it through `Triad.from_dict`, which restores
exactly the same fields, so entries are modelled as `Triad` records).  The
special `'__max_current_depth'` integer entry the Python code keeps inside the
same dictionary is modelled as the separate field `maxCurrentDepth`. -/
structure LedgerState where
  triads : List (String × Triad)
  maxCurrentDepth : Int
  wallets : Wallets
deriving Repr, DecidableEq

/-- A fresh `TriangularLedger` paired with a given wallets instance
(`self.triads = {}`, `self.max_current_depth = -1`). -/
def initialLedger (w : Wallets) : LedgerState :=
  { triads := [], maxCurrentDepth := -1, wallets := w }

/-- The parent-validation loop of `add_triad`: every listed parent must
exist, must not be full, and must sit exactly one depth level below the
candidate; the loop stops at the first violation. -/
def parentsOk (st : LedgerState) (t : Triad) : List String → Bool
  | [] => true
  | ph :: rest =>
      match dictFind st.triads ph with
      | none => false
      | some p =>
          if p.isFull then false
          else if t.depth != p.depth + 1 then false
          else parentsOk st t rest

/-- `TriangularLedger.process_transaction`: a single transfer through the
wallets, charging `config.TRANSACTION_FEE`.  The source reads
`transaction.recipient_address`, a field `TransactionNode` does not define (it
defines `receiver_address`); the embedding identifies the two, which is the
reading most favourable to the source. -/
def processTransaction (cfg : Config) (w : Wallets) (tx : TransactionNode) :
    Wallets × Bool :=
  w.transferFunds tx.sender_address tx.receiver_address tx.amount cfg.TRANSACTION_FEE

/-- The transaction loop of `add_triad`: processes transactions in order,
stopping at the first failure; wallet effects of earlier transactions are kept
either way. -/
def processTxs (cfg : Config) (w : Wallets) : List TransactionNode → Wallets × Bool
  | [] => (w, true)
  | tx :: rest =>
      match processTransaction cfg w tx with
      | (w1, true) => processTxs cfg w1 rest
      | (w1, false) => (w1, false)

/-- The parent-update loop of `add_triad`: for every listed parent present in
the store whose `child_hashes` does not yet contain the new hash and is below
`config.MAX_CHILD_CAPACITY`, append the new hash. -/
def linkParents (cfg : Config) (childHash : String)
    (triads : List (String × Triad)) : List String → List (String × Triad)
  | [] => triads
  | ph :: rest =>
      let triads' :=
        match dictFind triads ph with
        | some p =>
            if childHash ∉ p.child_hashes ∧
                p.child_hashes.length < cfg.MAX_CHILD_CAPACITY then
              dictSet triads ph { p with child_hashes := p.child_hashes ++ [childHash] }
            else triads
        | none => triads
      linkParents cfg childHash triads' rest

/-- `TriangularLedger.add_triad`: the Graph Store's add operation.  Returns
the method's boolean result together with the state after the call (rejections
that happen after transaction processing keep the partial wallet effects, as
the source does). -/
def addTriad (cfg : Config) (st : LedgerState) (t : Triad) (isGenesis : Bool) :
    Bool × LedgerState :=
  if (dictFind st.triads t.hash).isSome ∧ t.hash ≠ "__max_current_depth" then
    (false, st)
  else if ¬ pyStartswith t.hash (zeros cfg.DIFFICULTY) then (false, st)
  else if ¬ isGenesis ∧ t.parent_hashes = [] then (false, st)
  else if ¬ isGenesis ∧ ¬ parentsOk st t t.parent_hashes then (false, st)
  else if isGenesis ∧ (t.parent_hashes ≠ [] ∨ t.depth ≠ 0) then (false, st)
  else if cfg.MAX_DEPTH < t.depth then (false, st)
  else
    match processTxs cfg st.wallets t.transactions with
    | (w1, false) => (false, { st with wallets := w1 })
    | (w1, true) =>
        let triads1 := dictSet st.triads t.hash t
        let triads2 := linkParents cfg t.hash triads1 t.parent_hashes
        let newMax := if st.maxCurrentDepth < t.depth then t.depth else st.maxCurrentDepth
        let w2 := if t.miner_address ≠ "" then (w1.addFunds t.miner_address cfg.MINING_REWARD).1 else w1
        (true, { triads := triads2, maxCurrentDepth := newMax, wallets := w2 })

/-- The typed rejection reasons of the spec's §4.1/§7 (plus the
transaction-processing failure, which `add_triad` also turns into a
rejection). -/
inductive Rejection where
  | duplicateHash
  | difficultyNotMet
  | parentMissing
  | parentFull
  | depthMismatch
  | invalidGenesis
  | depthExceeded
  | transactionFailed
deriving Repr, DecidableEq

/-- First violation reported by the parent-validation loop of `add_triad`,
in the loop's own order: per parent, existence, then capacity, then depth. -/
def parentsFirstRejection (st : LedgerState) (t : Triad) :
    List String → Option Rejection
  | [] => none
  | ph :: rest =>
      match dictFind st.triads ph with
      | none => some .parentMissing
      | some p =>
          if p.isFull then some .parentFull
          else if t.depth != p.depth + 1 then some .depthMismatch
          else parentsFirstRejection st t rest

/-- The first failing check of `add_triad`, in the order the source performs
the checks: duplicate hash, difficulty, then (non-genesis) parent presence and
the per-parent existence/capacity/depth loop, genesis shape, maximum ledger
depth, and finally transaction processing. -/
def firstRejection (cfg : Config) (st : LedgerState) (t : Triad)
    (isGenesis : Bool) : Option Rejection :=
  if (dictFind st.triads t.hash).isSome ∧ t.hash ≠ "__max_current_depth" then
    some .duplicateHash
  else if ¬ pyStartswith t.hash (zeros cfg.DIFFICULTY) then some .difficultyNotMet
  else if ¬ isGenesis ∧ t.parent_hashes = [] then some .parentMissing
  else if ¬ isGenesis ∧ (parentsFirstRejection st t t.parent_hashes).isSome then
    parentsFirstRejection st t t.parent_hashes
  else if isGenesis ∧ (t.parent_hashes ≠ [] ∨ t.depth ≠ 0) then some .invalidGenesis
  else if cfg.MAX_DEPTH < t.depth then some .depthExceeded
  else if (processTxs cfg st.wallets t.transactions).2 = false then
    some .transactionFailed
  else none

/-- Whether the store already holds a genesis triad (depth 0, no parents). -/
def hasGenesisTriad (st : LedgerState) : Bool :=
  st.triads.any (fun p => p.2.depth == 0 && p.2.parent_hashes.isEmpty)

/-- Depths of the candidate's parents, when all of them resolve. -/
def parentDepths (st : LedgerState) : List String → Option (List Int)
  | [] => some []
  | h :: rest =>
      match dictFind st.triads h with
      | none => none
      | some p =>
          match parentDepths st rest with
          | none => none
          | some ds => some (p.depth :: ds)

/-- Maximum of a list of integers. -/
def listMax? : List Int → Option Int
  | [] => none
  | x :: xs =>
      match listMax? xs with
      | none => some x
      | some m => some (max x m)

/-- Whether any listed parent that resolves is already full. -/
def anyParentFull (st : LedgerState) (hs : List String) : Bool :=
  hs.any (fun h =>
    match dictFind st.triads h with
    | some p => p.isFull
    | none => false)

/-- Modelled from the spec: the validation order §4.1 prescribes for `add` —
"validates invariants 1–7 above, in that order, short-circuiting on first
failure", the invariants being §3's numbered list: 1 genesis uniqueness,
2 parent existence, 3 depth rule, 4 parent capacity, 5 proof-of-work
validity, 6 hash uniqueness, 7 maximum ledger depth. -/
def specOrderFirstRejection (cfg : Config) (st : LedgerState) (t : Triad)
    (isGenesis : Bool) : Option Rejection :=
  if isGenesis ∧ (hasGenesisTriad st ∨ t.parent_hashes ≠ [] ∨ t.depth ≠ 0) then
    some .invalidGenesis
  else if ¬ isGenesis ∧
      (t.parent_hashes = [] ∨ (parentDepths st t.parent_hashes).isNone) then
    some .parentMissing
  else if ¬ isGenesis ∧
      (parentDepths st t.parent_hashes).bind listMax? ≠ some (t.depth - 1) then
    some .depthMismatch
  else if ¬ isGenesis ∧ anyParentFull st t.parent_hashes then some .parentFull
  else if ¬ pyStartswith t.hash (zeros cfg.DIFFICULTY) then some .difficultyNotMet
  else if (dictFind st.triads t.hash).isSome then some .duplicateHash
  else if cfg.MAX_DEPTH < t.depth then some .depthExceeded
  else none

/-- `Miner._get_transactions_for_triad` (`seirchain/miner.py`): removes
`min(len(pool), MAX_TRANSACTIONS_PER_TRIAD)` transactions from the front of
the pool; returns the selected transactions and the remaining pool. -/
def getTransactionsForTriad (cfg : Config) (pool : List TransactionNode) :
    List TransactionNode × List TransactionNode :=
  let n := min pool.length cfg.MAX_TRANSACTIONS_PER_TRIAD
  (pool.take n, pool.drop n)

/-- The transaction-pool contents after one `Miner.mine_next_triad` call
(`seirchain/miner.py`).  The method mutates `self.transaction_pool` exactly
once, inside `_get_transactions_for_triad`; no later statement writes the
pool: the exhausted-nonce branch returns None, and the ledger-rejection
branch (`add_triad` returning False) prints a message and returns None, so
the remainder of the drain is the final pool in every outcome. -/
def mineNextTriadPool (cfg : Config) (pool : List TransactionNode) :
    List TransactionNode :=
  (getTransactionsForTriad cfg pool).2

/-- `seirchain.core.data_types.base.Triad`: the frozen dataclass the core
ledger and core miner operate on. -/
structure CoreTriad where
  triad_id : String
  depth : Int
  hash_value : String
  parent_hashes : List String
  child_hashes : List String
deriving Repr, DecidableEq

/-- `CoreTriad.to_dict()` output: the five fields of the dataclass. -/
structure TriadDict where
  triad_id : String
  depth : Int
  hash_value : String
  parent_hashes : List String
  child_hashes : List String
deriving Repr, DecidableEq

/-- `CoreTriad.to_dict`. -/
def CoreTriad.toDict (t : CoreTriad) : TriadDict :=
  { triad_id := t.triad_id, depth := t.depth, hash_value := t.hash_value,
    parent_hashes := t.parent_hashes, child_hashes := t.child_hashes }

/-- State of `seirchain.core.triangular_ledger.triangular_ledger.TriangularLedger`
(the fields relevant to persistence). -/
structure CoreLedger where
  max_depth : Int
  genesis_triad : Option CoreTriad
  triadMap : List (String × CoreTriad)
deriving Repr, DecidableEq

/-- The document `save_to_json` writes: the genesis hash and the list of all
triads' `to_dict()` output. -/
structure LedgerDoc where
  genesis_hash : String
  all_triads : List TriadDict
deriving Repr, DecidableEq

/-- `TriangularLedger.save_to_json`: returns `none` when there is no genesis
triad (the source logs a warning and writes nothing), otherwise the document
written to disk. -/
def saveToJson (L : CoreLedger) : Option LedgerDoc :=
  match L.genesis_triad with
  | none => none
  | some g =>
      some { genesis_hash := g.hash_value,
             all_triads := L.triadMap.map (fun p => p.2.toDict) }

/-- Keyword parameters accepted by `seirchain.data_types.triad.Triad.__init__`
(the `Triad` class `load_from_json` imports). -/
def dataTypesTriadAcceptedKw : List String :=
  ["triad_id", "depth", "parent_hashes", "transactions", "nonce",
   "difficulty", "miner_address", "timestamp", "current_hash", "child_hashes"]

/-- Parameters of that constructor that have no default value. -/
def dataTypesTriadRequiredKw : List String :=
  ["triad_id", "depth", "parent_hashes", "transactions", "nonce",
   "difficulty", "miner_address"]

/-- The keyword arguments `load_from_json` passes to the `Triad` constructor
(`Triad(triad_id=..., depth=..., hash_value=..., parent_hashes=...)`). -/
def loadTriadCallKw : List String :=
  ["triad_id", "depth", "hash_value", "parent_hashes"]

/-- A Python keyword call succeeds iff every given keyword is an accepted
parameter and every parameter without a default is given; otherwise the call
raises `TypeError`. -/
def pyKwCallOk (accepted required given : List String) : Bool :=
  given.all (accepted.contains ·) && required.all (given.contains ·)

/-- Errors `load_from_json` can raise. -/
inductive LoadError where
  | valueError
  | typeError
deriving Repr, DecidableEq

/-- The per-triad reconstruction step of `load_from_json`: the call
`Triad(triad_id=..., depth=..., hash_value=..., parent_hashes=...)` against
the imported `seirchain.data_types.triad.Triad` constructor; when the keyword
call checks out, the object carrying the dictionary's fields (the remaining
attributes are copied over by `setattr`) is produced. -/
def reconstructTriad (d : TriadDict) : Except LoadError CoreTriad :=
  if pyKwCallOk dataTypesTriadAcceptedKw dataTypesTriadRequiredKw loadTriadCallKw then
    .ok { triad_id := d.triad_id, depth := d.depth, hash_value := d.hash_value,
          parent_hashes := d.parent_hashes, child_hashes := d.child_hashes }
  else
    .error .typeError

/-- `TriangularLedger.load_from_json` on an already-parsed document: raises
`ValueError` when the genesis hash is falsy or the triad list is empty,
reconstructs every triad (raising whatever the constructor call raises),
keys the map by `hash_value`, and requires the genesis hash to resolve. -/
def loadFromJson (maxDepth : Int) (doc : LedgerDoc) : Except LoadError CoreLedger :=
  if doc.genesis_hash = "" ∨ doc.all_triads = [] then .error .valueError
  else do
    let ts ← doc.all_triads.mapM reconstructTriad
    let temp := ts.map (fun t => (t.hash_value, t))
    match dictFind temp doc.genesis_hash with
    | none => .error .valueError
    | some g =>
        .ok { max_depth := maxDepth, genesis_triad := some g, triadMap := temp }

/-- Whether an `Except` result is an error. -/
def loadIsError : Except LoadError CoreLedger → Bool
  | .error _ => true
  | .ok _ => false

/-- The `transaction_data` dictionary of a core transaction.  Each field is
`none` when the key is absent, and `some v` when the key is present with
value `v` (`v` itself optional, since Python allows the value `None`). -/
structure TxData where
  from_addr : Option (Option String)
  to_addr : Option (Option String)
  amount : Option (Option Int)
  fee : Option (Option Int)
  timestamp : Option (Option Int)
  signature : Option (Option String)
deriving Repr, DecidableEq

/-- `seirchain.core.data_types.base.Transaction`: frozen dataclass with
attributes `transaction_data`, `tx_hash` and `timestamp`. -/
structure CoreTransaction where
  transaction_data : TxData
  tx_hash : String
  timestamp : Int
deriving Repr, DecidableEq

/-- `Miner._validate_transaction` (`core/miner.py`): each of the required
names `from_addr`, `to_addr`, `amount`, `fee`, `timestamp` must be an
attribute of the transaction object or a key of `transaction_data`; only
`timestamp` is an attribute of the frozen dataclass, so the other four must
be dictionary keys.  The amount is then read as
`getattr(transaction, 'amount', None) or transaction_data.get('amount', None)`
— the dataclass has no `amount` attribute, so the dictionary value is used —
and the transaction is rejected when it is `None` or not positive. -/
def validateTransaction (tx : CoreTransaction) : Bool :=
  tx.transaction_data.from_addr.isSome && tx.transaction_data.to_addr.isSome &&
  tx.transaction_data.amount.isSome && tx.transaction_data.fee.isSome &&
  (match tx.transaction_data.amount.bind id with
   | none => false
   | some a => decide (0 < a))

/-- `Miner.add_transaction_to_pool` (`core/miner.py`): drops invalid
transactions, drops transactions whose `tx_hash` is already queued, appends
otherwise. -/
def addTransactionToPool (pool : List CoreTransaction) (tx : CoreTransaction) :
    List CoreTransaction :=
  if ¬ validateTransaction tx then pool
  else if pool.any (fun t => t.tx_hash == tx.tx_hash) then pool
  else pool ++ [tx]

/-- A transaction's effective amount is positive (the condition
`_validate_transaction` enforces on the pool). -/
def txAmountPositive (tx : CoreTransaction) : Bool :=
  match tx.transaction_data.amount.bind id with
  | none => false
  | some a => decide (0 < a)

/-! ### Sample data used by witnesses and counterexamples -/

/-- A small configuration: difficulty 1, max depth 8, capacity 3. -/
def sampleCfg : Config :=
  { DIFFICULTY := 1, MAX_DEPTH := 8, MINING_REWARD := 10, TRANSACTION_FEE := 0,
    MAX_CHILD_CAPACITY := 3, MAX_TRANSACTIONS_PER_TRIAD := 10 }

/-- A mined genesis triad record. -/
def tGenesis : Triad :=
  { triad_id := "genesis", depth := 0, parent_hashes := [], timestamp := 0,
    transactions := [], nonce := 0, difficulty := 1, miner_address := "m",
    hash := "0g", child_hashes := [] }

/-- A ledger state holding only the genesis triad. -/
def stGenesis : LedgerState :=
  { triads := [("0g", tGenesis)], maxCurrentDepth := 0, wallets := ⟨[]⟩ }

/-- A valid first child of the genesis triad. -/
def tChild : Triad :=
  { triad_id := "child", depth := 1, parent_hashes := ["0g"], timestamp := 1,
    transactions := [], nonce := 0, difficulty := 1, miner_address := "m",
    hash := "0c", child_hashes := [] }

/-- A candidate whose hash misses the difficulty target. -/
def tBadHash : Triad :=
  { triad_id := "bad", depth := 1, parent_hashes := ["0g"], timestamp := 1,
    transactions := [], nonce := 0, difficulty := 1, miner_address := "m",
    hash := "1x", child_hashes := [] }

/-- A candidate whose depth violates the depth rule. -/
def tWrongDepth : Triad :=
  { triad_id := "wd", depth := 5, parent_hashes := ["0g"], timestamp := 1,
    transactions := [], nonce := 0, difficulty := 1, miner_address := "m",
    hash := "0w", child_hashes := [] }

/-- A candidate arriving with four pre-filled child hashes. -/
def tOverfull : Triad :=
  { triad_id := "x", depth := 1, parent_hashes := ["0g"], timestamp := 0,
    transactions := [], nonce := 0, difficulty := 1, miner_address := "m",
    hash := "0x", child_hashes := ["c1", "c2", "c3", "c4"] }

/-- Every stored triad respects the child capacity. -/
def childCapOkB (st : LedgerState) : Bool :=
  st.triads.all (fun p => p.2.child_hashes.length ≤ TRIAD_MAX_CHILD_CAPACITY)

/-- A sequence of Graph Store add operations (each with its `is_genesis`
flag), applied in order. -/
def runOps (cfg : Config) (st : LedgerState) : List (Triad × Bool) → LedgerState
  | [] => st
  | op :: rest => runOps cfg (addTriad cfg st op.1 op.2).2 rest

/-- Genesis with a full complement of children. -/
def tGenesisFull : Triad :=
  { triad_id := "genesis", depth := 0, parent_hashes := [], timestamp := 0,
    transactions := [], nonce := 0, difficulty := 1, miner_address := "m",
    hash := "0g", child_hashes := ["a", "b", "c"] }

/-- A ledger whose only triad (the genesis) is full. -/
def stFullParent : LedgerState :=
  { triads := [("0g", tGenesisFull)], maxCurrentDepth := 0, wallets := ⟨[]⟩ }

/-- A candidate failing both proof-of-work (spec invariant 5) and parent
existence (spec invariant 2): its hash has no zero prefix and its only
parent hash resolves to nothing. -/
def tOrder : Triad :=
  { triad_id := "o", depth := 1, parent_hashes := ["nope"], timestamp := 0,
    transactions := [], nonce := 0, difficulty := 1, miner_address := "m",
    hash := "1o", child_hashes := [] }

/-- A sample pooled transaction. -/
def samplePoolTx : TransactionNode :=
  { sender_address := "alice", receiver_address := "bob", amount := 5, fee := 0,
    timestamp := 0, hash := "t0", signature := none }

/-- The coinbase transaction the miner builds: sender `"0x0"`. -/
def coinbaseTx : TransactionNode :=
  { sender_address := "0x0", receiver_address := "alice", amount := 10, fee := 0,
    timestamp := 0, hash := "cb", signature := some "coinbase_tx" }

/-- A genesis-shaped triad carrying the coinbase transaction. -/
def tCoinbase : Triad :=
  { triad_id := "g", depth := 0, parent_hashes := [], timestamp := 0,
    transactions := [coinbaseTx], nonce := 0, difficulty := 1,
    miner_address := "m", hash := "0cb", child_hashes := [] }

/-- An empty ledger whose wallets lack any `"0x0"` entry. -/
def stNoSentinel : LedgerState :=
  { triads := [], maxCurrentDepth := -1,
    wallets := ⟨[("alice", { name := "Alice", balance := 0 })]⟩ }

/-- The same ledger with a funded `"0x0"` wallet added. -/
def stSentinelFunded : LedgerState :=
  { triads := [], maxCurrentDepth := -1,
    wallets := ⟨[("alice", { name := "Alice", balance := 0 }),
                 ("0x0", { name := "COINBASE", balance := 100 })]⟩ }

/-- A core genesis triad. -/
def coreGenesis : CoreTriad :=
  { triad_id := "g", depth := 0, hash_value := "h", parent_hashes := [],
    child_hashes := [] }

/-- A one-triad core ledger. -/
def coreLedgerSample : CoreLedger :=
  { max_depth := 8, genesis_triad := some coreGenesis,
    triadMap := [("h", coreGenesis)] }

/-- The pool invariant: pairwise-distinct content hashes, all amounts
positive. -/
def poolOk (pool : List CoreTransaction) : Prop :=
  (pool.map (·.tx_hash)).Nodup ∧ ∀ tx ∈ pool, txAmountPositive tx = true

/-- A well-formed pooled transaction. -/
def sampleCoreTx : CoreTransaction :=
  { transaction_data :=
      { from_addr := some (some "a"), to_addr := some (some "b"),
        amount := some (some 5), fee := some (some 0),
        timestamp := some (some 0), signature := some none },
    tx_hash := "h1", timestamp := 0 }

/-- A transaction whose declared amount is zero. -/
def sampleZeroTx : CoreTransaction :=
  { transaction_data :=
      { from_addr := some (some "a"), to_addr := some (some "b"),
        amount := some (some 0), fee := some (some 0),
        timestamp := some (some 0), signature := some none },
    tx_hash := "h2", timestamp := 0 }

/-! ### Helper lemmas -/

theorem replicate_isPrefixOf_iff (d : Nat) (l : List Char) :
    List.isPrefixOf (List.replicate d '0') l = true ↔
      d ≤ (l.takeWhile (fun c => c == '0')).length := by
  induction d generalizing l with
  | zero => simp [List.isPrefixOf]
  | succ n ih =>
      cases l with
      | nil => simp [List.replicate_succ, List.isPrefixOf]
      | cons c cs =>
          by_cases hc : c = '0'
          · subst hc
            simp [List.replicate_succ, List.isPrefixOf, List.takeWhile_cons,
              Nat.succ_le_succ_iff, ih]
          · simp [List.replicate_succ, List.isPrefixOf, List.takeWhile_cons, hc,
              Ne.symm hc]

theorem pyStartswith_zeros_iff (s : String) (d : Nat) :
    pyStartswith s (zeros d) = true ↔ d ≤ leadingZeroCount s := by
  simpa [pyStartswith, zeros, leadingZeroCount] using
    replicate_isPrefixOf_iff d s.data

/-! ### C7: the content hash ignores `child_hashes` -/

/-- C7: `Triad.calculate_hash` depends only on `triad_id`, `depth`,
`parent_hashes`, `transactions`, `nonce`, `difficulty`, `miner_address` and
`timestamp`: replacing `child_hashes` outright, or appending a child via
`add_child_hash`, leaves the hash unchanged. -/
theorem calculateHash_ignores_child_hashes :
    ∀ (sha : String → String) (t : Triad) (c : List String) (h : String),
      calculateHash sha { t with child_hashes := c } = calculateHash sha t ∧
      calculateHash sha (addChildHash t h).1 = calculateHash sha t := by
  intro sha t c h
  refine ⟨rfl, ?_⟩
  unfold addChildHash
  split <;> rfl

/-! ### C10: parent order does not affect a Triad's identity -/

/-- C10: the `Triad` constructor sorts `parent_hashes`, so two triads built
from permuted parent lists (all other constructor arguments equal, hash left
to be computed) are the same record — same stored `parent_hashes`, same
hash. -/
theorem mkTriad_parent_order_insensitive
    (sha : String → String) (triad_id : String) (depth : Int)
    (transactions : List TransactionNode) (nonce : Int) (difficulty : Int)
    (miner_address : String) (timestamp : Int) (l1 l2 : List String)
    (hperm : l1.Perm l2) :
    mkTriad sha triad_id depth l1 transactions nonce difficulty miner_address
        timestamp none none =
      mkTriad sha triad_id depth l2 transactions nonce difficulty miner_address
        timestamp none none := by
  have hsort : List.insertionSort (fun a b : String => a ≤ b) l1 =
      List.insertionSort (fun a b : String => a ≤ b) l2 :=
    List.eq_of_perm_of_sorted
      ((List.perm_insertionSort _ l1).trans
        (hperm.trans (List.perm_insertionSort _ l2).symm))
      (List.sorted_insertionSort _ l1)
      (List.sorted_insertionSort _ l2)
  unfold mkTriad
  simp only [hsort]

theorem mkTriad_parent_order_insensitive_witness :
    mkTriad (fun s => s) "t" 1 ["b", "a"] [] 0 1 "m" 5 none none =
      mkTriad (fun s => s) "t" 1 ["a", "b"] [] 0 1 "m" 5 none none :=
  mkTriad_parent_order_insensitive (fun s => s) "t" 1 [] 0 1 "m" 5
    ["b", "a"] ["a", "b"] (List.Perm.swap "a" "b" [])

/-! ### C1: accepted triads meet the difficulty target -/

theorem addTriad_rejects_low_hash (cfg : Config) (st : LedgerState)
    (t : Triad) (isGenesis : Bool)
    (h : pyStartswith t.hash (zeros cfg.DIFFICULTY) = false) :
    (addTriad cfg st t isGenesis).1 = false := by
  unfold addTriad
  by_cases h1 : (dictFind st.triads t.hash).isSome ∧ t.hash ≠ "__max_current_depth"
  · rw [if_pos h1]
  · rw [if_neg h1, if_pos]
    simp [h]

/-- C1: `add_triad` accepts only triads whose stored hash carries at least
`DIFFICULTY` leading zero hex digits (the configured difficulty at the time
of the call), and rejects any triad below that target. -/
theorem addTriad_difficulty (cfg : Config) (st : LedgerState) (t : Triad)
    (isGenesis : Bool) :
    ((addTriad cfg st t isGenesis).1 = true →
        cfg.DIFFICULTY ≤ leadingZeroCount t.hash) ∧
    (leadingZeroCount t.hash < cfg.DIFFICULTY →
        (addTriad cfg st t isGenesis).1 = false) := by
  constructor
  · intro hacc
    by_contra hlt
    have hf : pyStartswith t.hash (zeros cfg.DIFFICULTY) = false := by
      cases hps : pyStartswith t.hash (zeros cfg.DIFFICULTY) with
      | false => rfl
      | true => exact absurd ((pyStartswith_zeros_iff t.hash cfg.DIFFICULTY).mp hps) hlt
    rw [addTriad_rejects_low_hash cfg st t isGenesis hf] at hacc
    exact Bool.false_ne_true hacc
  · intro hlt
    apply addTriad_rejects_low_hash
    cases hps : pyStartswith t.hash (zeros cfg.DIFFICULTY) with
    | false => rfl
    | true =>
        exact absurd ((pyStartswith_zeros_iff t.hash cfg.DIFFICULTY).mp hps)
          (Nat.not_le_of_lt hlt)

theorem addTriad_difficulty_witness :
    (1 ≤ leadingZeroCount tChild.hash) ∧
      (addTriad sampleCfg stGenesis tBadHash false).1 = false :=
  ⟨(addTriad_difficulty sampleCfg stGenesis tChild false).1 (by decide),
   (addTriad_difficulty sampleCfg stGenesis tBadHash false).2 (by decide)⟩

/-! ### C2: the depth rule for accepted non-genesis triads -/

theorem parentsOk_cons (st : LedgerState) (t : Triad) (a : String)
    (rest : List String) (hok : parentsOk st t (a :: rest) = true) :
    ∃ p, dictFind st.triads a = some p ∧ p.isFull = false ∧
      t.depth = p.depth + 1 ∧ parentsOk st t rest = true := by
  unfold parentsOk at hok
  split at hok
  next => simp at hok
  next p hfind =>
    by_cases hfull : p.isFull = true
    · rw [if_pos hfull] at hok; exact absurd hok (by simp)
    · rw [if_neg hfull] at hok
      by_cases hd : (t.depth != p.depth + 1) = true
      · rw [if_pos hd] at hok; exact absurd hok (by simp)
      · rw [if_neg hd] at hok
        have hdep : t.depth = p.depth + 1 := by
          have hd' := hd
          simp [bne_iff_ne] at hd'
          exact hd'
        exact ⟨p, hfind, Bool.not_eq_true _ ▸ (by simpa using hfull), hdep, hok⟩

theorem parentsOk_depths (st : LedgerState) (t : Triad) :
    ∀ hs : List String, parentsOk st t hs = true →
      ∃ ds, parentDepths st hs = some ds ∧ ds.length = hs.length ∧
        ∀ x ∈ ds, x = t.depth - 1 := by
  intro hs
  induction hs with
  | nil => intro _; exact ⟨[], rfl, rfl, by simp⟩
  | cons a rest ih =>
      intro hok
      obtain ⟨p, hfind, _, hdep, hrest⟩ := parentsOk_cons st t a rest hok
      obtain ⟨ds, hds, hlen, hall⟩ := ih hrest
      refine ⟨p.depth :: ds, ?_, by simp [hlen], ?_⟩
      · simp [parentDepths, hfind, hds]
      · intro x hx
        rcases List.mem_cons.mp hx with rfl | hx'
        · omega
        · exact hall x hx'

theorem listMax?_const (c : Int) :
    ∀ ds : List Int, ds ≠ [] → (∀ x ∈ ds, x = c) → listMax? ds = some c := by
  intro ds
  induction ds with
  | nil => intro h; exact absurd rfl h
  | cons a rest ih =>
      intro _ hall
      have ha : a = c := hall a (by simp)
      cases hrest : rest with
      | nil => subst hrest; simp [listMax?, ha]
      | cons b bs =>
          have hne : rest ≠ [] := by simp [hrest]
          rw [← hrest]
          unfold listMax?
          rw [ih hne (fun x hx => hall x (List.mem_cons_of_mem _ hx))]
          simp [ha]

theorem addTriad_accepted_parentsOk (cfg : Config) (st : LedgerState)
    (t : Triad) (h : (addTriad cfg st t false).1 = true) :
    t.parent_hashes ≠ [] ∧ parentsOk st t t.parent_hashes = true := by
  unfold addTriad at h
  by_cases h1 : (dictFind st.triads t.hash).isSome ∧ t.hash ≠ "__max_current_depth"
  · rw [if_pos h1] at h; exact absurd h (by simp)
  · rw [if_neg h1] at h
    by_cases h2 : ¬ pyStartswith t.hash (zeros cfg.DIFFICULTY)
    · rw [if_pos h2] at h; exact absurd h (by simp)
    · rw [if_neg h2] at h
      by_cases h3 : t.parent_hashes = []
      · rw [if_pos ⟨by simp, h3⟩] at h; exact absurd h (by simp)
      · by_cases h4 : parentsOk st t t.parent_hashes = true
        · exact ⟨h3, h4⟩
        · rw [if_neg (fun hc => h3 hc.2),
            if_pos ⟨by simp, by simpa using h4⟩] at h
          exact absurd h (by simp)

/-- C2: a non-genesis triad is accepted only when every parent resolves and
its depth is exactly the maximum parent depth plus one; a candidate whose
depth differs from that value is rejected. -/
theorem addTriad_depth_rule (cfg : Config) (st : LedgerState) (t : Triad) :
    ((addTriad cfg st t false).1 = true →
        ∃ ds, parentDepths st t.parent_hashes = some ds ∧
          listMax? ds = some (t.depth - 1)) ∧
    (∀ ds m, parentDepths st t.parent_hashes = some ds → listMax? ds = some m →
        t.depth ≠ m + 1 → (addTriad cfg st t false).1 = false) := by
  constructor
  · intro hacc
    obtain ⟨hne, hok⟩ := addTriad_accepted_parentsOk cfg st t hacc
    obtain ⟨ds, hds, hlen, hall⟩ := parentsOk_depths st t t.parent_hashes hok
    refine ⟨ds, hds, listMax?_const _ ds ?_ hall⟩
    intro hnil
    rw [hnil] at hlen
    cases hp : t.parent_hashes with
    | nil => exact hne hp
    | cons x xs => rw [hp] at hlen; simp at hlen
  · intro ds m hds hm hneq
    cases hacc : (addTriad cfg st t false).1 with
    | false => rfl
    | true =>
        exfalso
        obtain ⟨hne, hok⟩ := addTriad_accepted_parentsOk cfg st t hacc
        obtain ⟨ds', hds', hlen, hall⟩ := parentsOk_depths st t _ hok
        rw [hds] at hds'
        injection hds' with hdd
        subst hdd
        have hdsne : ds ≠ [] := by
          intro hnil
          rw [hnil] at hlen
          cases hp : t.parent_hashes with
          | nil => exact hne hp
          | cons x xs => rw [hp] at hlen; simp at hlen
        rw [listMax?_const _ ds hdsne hall] at hm
        injection hm with hmm
        exact hneq (by omega)

theorem addTriad_depth_rule_witness :
    (∃ ds, parentDepths stGenesis tChild.parent_hashes = some ds ∧
        listMax? ds = some (tChild.depth - 1)) ∧
      (addTriad sampleCfg stGenesis tWrongDepth false).1 = false :=
  ⟨(addTriad_depth_rule sampleCfg stGenesis tChild).1 (by decide),
   (addTriad_depth_rule sampleCfg stGenesis tWrongDepth).2 [0] 0 (by decide)
     (by decide) (by decide)⟩

/-! ### C3: child capacity -/

/-- C3 counterexample: `add_triad` never examines the candidate's own
`child_hashes`, so a candidate arriving with four child hashes passes every
check, is accepted, and is stored with four children — more than
`MAX_CHILD_CAPACITY`. -/
theorem addTriad_childCap_counterexample :
    (addTriad sampleCfg stGenesis tOverfull false).1 = true ∧
      ((addTriad sampleCfg stGenesis tOverfull false).2.triads.any
        (fun p => TRIAD_MAX_CHILD_CAPACITY < p.2.child_hashes.length)) = true := by
  decide

theorem mem_dictSet {α : Type} (l : List (String × α)) (k : String) (v : α)
    (p : String × α) (hp : p ∈ dictSet l k v) : p ∈ l ∨ p = (k, v) := by
  unfold dictSet at hp
  split at hp
  · rcases List.mem_map.mp hp with ⟨q, hq, hqe⟩
    by_cases hk : q.1 == k
    · right; rw [if_pos hk] at hqe; exact hqe.symm
    · left; rw [if_neg hk] at hqe; exact hqe ▸ hq
  · rcases List.mem_append.mp hp with h | h
    · exact Or.inl h
    · right; simpa using h

theorem linkParents_bound (cfg : Config) (hcap : cfg.MAX_CHILD_CAPACITY = 3)
    (h : String) :
    ∀ (hs : List String) (ts : List (String × Triad)),
      (∀ p ∈ ts, p.2.child_hashes.length ≤ 3) →
      ∀ p ∈ linkParents cfg h ts hs, p.2.child_hashes.length ≤ 3 := by
  intro hs
  induction hs with
  | nil => intro ts hts p hp; exact hts p hp
  | cons a rest ih =>
      intro ts hts p hp
      have hp' : p ∈ linkParents cfg h
          (match dictFind ts a with
           | some pt =>
               if h ∉ pt.child_hashes ∧
                   pt.child_hashes.length < cfg.MAX_CHILD_CAPACITY then
                 dictSet ts a { pt with child_hashes := pt.child_hashes ++ [h] }
               else ts
           | none => ts) rest := hp
      refine ih _ ?_ p hp'
      intro q hq
      rcases hfind : dictFind ts a with _ | pt
      · simp only [hfind] at hq; exact hts q hq
      · simp only [hfind] at hq
        by_cases hcond : h ∉ pt.child_hashes ∧
            pt.child_hashes.length < cfg.MAX_CHILD_CAPACITY
        · rw [if_pos hcond] at hq
          rcases mem_dictSet _ _ _ q hq with hin | rfl
          · exact hts q hin
          · have hlt := hcond.2
            rw [hcap] at hlt
            simp only [List.length_append, List.length_singleton]
            omega
        · rw [if_neg hcond] at hq; exact hts q hq

theorem addTriad_childCap_step (cfg : Config) (hcap : cfg.MAX_CHILD_CAPACITY = 3)
    (st : LedgerState) (t : Triad) (g : Bool)
    (hst : ∀ p ∈ st.triads, p.2.child_hashes.length ≤ 3)
    (ht : t.child_hashes.length ≤ 3) :
    ∀ p ∈ (addTriad cfg st t g).2.triads, p.2.child_hashes.length ≤ 3 := by
  unfold addTriad
  split
  · exact hst
  split
  · exact hst
  split
  · exact hst
  split
  · exact hst
  split
  · exact hst
  split
  · exact hst
  split
  · exact hst
  · intro p hp
    refine linkParents_bound cfg hcap t.hash t.parent_hashes _ ?_ p hp
    intro q hq
    rcases mem_dictSet _ _ _ q hq with hin | rfl
    · exact hst q hin
    · exact ht

theorem runOps_childCap (cfg : Config) (hcap : cfg.MAX_CHILD_CAPACITY = 3) :
    ∀ (ops : List (Triad × Bool)) (st : LedgerState),
      (∀ p ∈ st.triads, p.2.child_hashes.length ≤ 3) →
      (∀ op ∈ ops, op.1.child_hashes.length ≤ 3) →
      ∀ p ∈ (runOps cfg st ops).triads, p.2.child_hashes.length ≤ 3 := by
  intro ops
  induction ops with
  | nil => intro st hst _; exact hst
  | cons op rest ih =>
      intro st hst hops
      unfold runOps
      apply ih
      · exact addTriad_childCap_step cfg hcap st op.1 op.2 hst (hops op (by simp))
      · intro o ho; exact hops o (List.mem_cons_of_mem _ ho)

theorem parentsOk_false_of_full (st : LedgerState) (t : Triad) (ph : String)
    (p : Triad) (hfind : dictFind st.triads ph = some p)
    (hfull : p.isFull = true) :
    ∀ hs, ph ∈ hs → parentsOk st t hs = false := by
  intro hs
  induction hs with
  | nil => intro h; simp at h
  | cons a rest ih =>
      intro hmem
      unfold parentsOk
      rcases List.mem_cons.mp hmem with rfl | hmem'
      · simp [hfind, hfull]
      · rcases hfa : dictFind st.triads a with _ | q
        · simp [hfa]
        · simp only [hfa]
          by_cases hqf : q.isFull = true
          · simp [hqf]
          · simp only [hqf, if_false, Bool.false_eq_true]
            by_cases hd : (t.depth != q.depth + 1) = true
            · simp [hd]
            · simp [hd, ih hmem']

/-- C3 (amended): the Graph Store itself never grows a `child_hashes` list
past `MAX_CHILD_CAPACITY` — `add_child_hash` refuses to append to a full
triad, a full parent causes the candidate's rejection, and any sequence of
add operations whose candidates themselves carry at most
`MAX_CHILD_CAPACITY` child hashes (as every mined candidate does, starting
empty) preserves the capacity bound on every stored triad.  The bound does
not extend to a candidate submitted with more than `MAX_CHILD_CAPACITY`
pre-filled child hashes, which the store accepts unchecked (see the
counterexample). -/
theorem childCap_amended :
    (∀ (t : Triad) (h : String), TRIAD_MAX_CHILD_CAPACITY ≤ t.child_hashes.length →
        addChildHash t h = (t, false)) ∧
    (∀ (cfg : Config) (st : LedgerState) (t : Triad) (ph : String) (p : Triad),
        dictFind st.triads ph = some p → p.isFull = true → ph ∈ t.parent_hashes →
        (addTriad cfg st t false).1 = false) ∧
    (∀ (cfg : Config) (st : LedgerState) (ops : List (Triad × Bool)),
        cfg.MAX_CHILD_CAPACITY = 3 → childCapOkB st = true →
        (∀ op ∈ ops, op.1.child_hashes.length ≤ 3) →
        childCapOkB (runOps cfg st ops) = true) := by
  refine ⟨?_, ?_, ?_⟩
  · intro t h hfull
    unfold addChildHash
    have hneg : ¬ (h ∉ t.child_hashes ∧
        t.child_hashes.length < TRIAD_MAX_CHILD_CAPACITY) := by
      rintro ⟨-, hlt⟩
      exact absurd hfull (Nat.not_le_of_lt hlt)
    rw [if_neg hneg]
  · intro cfg st t ph p hfind hfull hmem
    cases hacc : (addTriad cfg st t false).1 with
    | false => rfl
    | true =>
        obtain ⟨-, hok⟩ := addTriad_accepted_parentsOk cfg st t hacc
        rw [parentsOk_false_of_full st t ph p hfind hfull _ hmem] at hok
        exact absurd hok (by simp)
  · intro cfg st ops hcap hst hops
    have hst' : ∀ p ∈ st.triads, p.2.child_hashes.length ≤ 3 := by
      intro p hp
      have := List.all_eq_true.mp hst p hp
      simpa [TRIAD_MAX_CHILD_CAPACITY] using this
    have := runOps_childCap cfg hcap ops st hst' hops
    unfold childCapOkB
    rw [List.all_eq_true]
    intro p hp
    simpa [TRIAD_MAX_CHILD_CAPACITY] using this p hp

theorem childCap_amended_witness :
    addChildHash tOverfull "z" = (tOverfull, false) ∧
    (addTriad sampleCfg stFullParent tChild false).1 = false ∧
    childCapOkB (runOps sampleCfg stGenesis [(tChild, false)]) = true :=
  ⟨childCap_amended.1 tOverfull "z" (by decide),
   childCap_amended.2.1 sampleCfg stFullParent tChild "0g" tGenesisFull
     (by decide) (by decide) (by decide),
   childCap_amended.2.2 sampleCfg stGenesis [(tChild, false)] rfl (by decide)
     (by decide)⟩

/-! ### C4: validation order of `add_triad` -/

theorem parentsOk_iff_noRejection (st : LedgerState) (t : Triad) :
    ∀ hs, parentsOk st t hs = true ↔ parentsFirstRejection st t hs = none := by
  intro hs
  induction hs with
  | nil => simp [parentsOk, parentsFirstRejection]
  | cons a rest ih =>
      unfold parentsOk parentsFirstRejection
      rcases hfa : dictFind st.triads a with _ | q
      · simp [hfa]
      · simp only [hfa]
        by_cases hqf : q.isFull = true <;>
          by_cases hd : (t.depth != q.depth + 1) = true <;>
          simp [hqf, hd, ih]

/-- C4 counterexample: on a candidate violating both invariant 2 (parent
existence) and invariant 5 (proof-of-work), validation in the spec's
numbered order reports the parent failure, while `add_triad` checks the
difficulty before even looking at parents — the two orders disagree. -/
theorem addTriad_order_counterexample :
    firstRejection sampleCfg stGenesis tOrder false = some .difficultyNotMet ∧
    specOrderFirstRejection sampleCfg stGenesis tOrder false =
      some .parentMissing ∧
    firstRejection sampleCfg stGenesis tOrder false ≠
      specOrderFirstRejection sampleCfg stGenesis tOrder false := by
  decide

/-- C4 (amended): `add_triad` validates with short-circuiting, but in the
code's own order — duplicate hash, difficulty, then (for non-genesis
candidates) parent presence and the per-parent existence/capacity/depth
loop, genesis shape, maximum ledger depth, and finally transaction
processing; `firstRejection` encodes exactly that order, and acceptance
coincides with it reporting no rejection. -/
theorem addTriad_rejection_order (cfg : Config) (st : LedgerState) (t : Triad)
    (g : Bool) :
    (addTriad cfg st t g).1 = true ↔ firstRejection cfg st t g = none := by
  unfold addTriad firstRejection
  by_cases h1 : (dictFind st.triads t.hash).isSome ∧ t.hash ≠ "__max_current_depth"
  · rw [if_pos h1, if_pos h1]; simp
  rw [if_neg h1, if_neg h1]
  by_cases h2 : ¬ pyStartswith t.hash (zeros cfg.DIFFICULTY)
  · rw [if_pos h2, if_pos h2]; simp
  rw [if_neg h2, if_neg h2]
  by_cases h3 : ¬ g = true ∧ t.parent_hashes = []
  · rw [if_pos h3, if_pos h3]; simp
  rw [if_neg h3, if_neg h3]
  have h44 : (¬ g = true ∧ ¬ parentsOk st t t.parent_hashes = true) ↔
      (¬ g = true ∧ (parentsFirstRejection st t t.parent_hashes).isSome = true) := by
    constructor
    · rintro ⟨hg, hpo⟩
      refine ⟨hg, ?_⟩
      rcases hp : parentsFirstRejection st t t.parent_hashes with _ | r
      · exact absurd ((parentsOk_iff_noRejection st t _).mpr hp) hpo
      · rfl
    · rintro ⟨hg, hps⟩
      refine ⟨hg, fun hpo => ?_⟩
      rw [(parentsOk_iff_noRejection st t _).mp hpo] at hps
      simp at hps
  by_cases h4 : ¬ g = true ∧ ¬ parentsOk st t t.parent_hashes = true
  · rw [if_pos h4, if_pos (h44.mp h4)]
    have hps := (h44.mp h4).2
    rw [Option.isSome_iff_ne_none] at hps
    simpa using hps
  rw [if_neg h4, if_neg (fun hc => h4 (h44.mpr hc))]
  by_cases h5 : g = true ∧ (t.parent_hashes ≠ [] ∨ t.depth ≠ 0)
  · rw [if_pos h5, if_pos h5]; simp
  rw [if_neg h5, if_neg h5]
  by_cases h6 : cfg.MAX_DEPTH < t.depth
  · rw [if_pos h6, if_pos h6]; simp
  rw [if_neg h6, if_neg h6]
  rcases hpt : processTxs cfg st.wallets t.transactions with ⟨w1, ok⟩
  cases ok <;> simp

theorem addTriad_rejection_order_witness :
    firstRejection sampleCfg stGenesis tChild false = none :=
  (addTriad_rejection_order sampleCfg stGenesis tChild false).mp (by decide)

/-! ### C5: pool contents after a rejected candidate -/

/-- C5: `mine_next_triad` drains the pool up front and has no code path that
returns the drained transactions; after a candidate is rejected by the store
the pool has NOT regained them — with one queued transaction the drain takes
it and the pool finishes empty rather than unchanged. -/
theorem mineNextTriadPool_drops_on_rejection :
    getTransactionsForTriad sampleCfg [samplePoolTx] = ([samplePoolTx], []) ∧
      mineNextTriadPool sampleCfg [samplePoolTx] = [] ∧
      ([samplePoolTx] : List TransactionNode) ≠ [] := by
  decide

/-! ### C6: coinbase transactions and the balance check -/

/-- C6: acceptance of a triad containing a coinbase transaction (sender
`"0x0"`) DOES depend on the sentinel sender's balance: `process_transaction`
routes the coinbase through `transfer_funds`, whose `deduct_funds` fails when
no sufficiently funded `"0x0"` wallet exists — the triad is rejected — while
the identical triad is accepted once a `"0x0"` wallet holds enough funds.
The transfer path contains no special case for any sender address. -/
theorem coinbase_balance_dependence :
    (addTriad sampleCfg stNoSentinel tCoinbase true).1 = false ∧
      (addTriad sampleCfg stSentinelFunded tCoinbase true).1 = true ∧
      (stNoSentinel.wallets.transferFunds "0x0" "alice" 10 0).2 = false := by
  decide

/-! ### C8: save/load round-trip of the core ledger -/

theorem reconstructTriad_typeError (d : TriadDict) :
    reconstructTriad d = .error .typeError := by
  unfold reconstructTriad
  rw [if_neg]
  intro hc
  exact absurd hc (by decide)

theorem mapM_reconstruct_error (d : TriadDict) (rest : List TriadDict) :
    List.mapM reconstructTriad (d :: rest) =
      (.error .typeError : Except LoadError (List CoreTriad)) := by
  unfold List.mapM List.mapM.loop
  rw [reconstructTriad_typeError d]
  rfl

theorem loadFromJson_isError (md : Int) (doc : LedgerDoc) :
    loadIsError (loadFromJson md doc) = true := by
  unfold loadFromJson
  by_cases h1 : doc.genesis_hash = "" ∨ doc.all_triads = []
  · rw [if_pos h1]; rfl
  · rw [if_neg h1]
    rcases hat : doc.all_triads with _ | ⟨d, rest⟩
    · exact absurd (Or.inr hat) h1
    · show loadIsError (List.mapM reconstructTriad (d :: rest) >>= _) = true
      rw [mapM_reconstruct_error]
      rfl

/-- C8: `save_to_json` followed by `load_from_json` never reproduces a
ledger: `load_from_json` calls the imported
`seirchain.data_types.triad.Triad` constructor with the keyword `hash_value`
(which that constructor does not accept) and without its required
`transactions`, `nonce`, `difficulty` and `miner_address` arguments, so
reconstruction raises `TypeError` on every saved document — the load returns
no ledger at all, let alone one with the same triad hashes, tips and total
count. -/
theorem saveLoad_roundtrip_fails (L : CoreLedger) (md : Int) (doc : LedgerDoc)
    (hsave : saveToJson L = some doc) :
    loadIsError (loadFromJson md doc) = true :=
  loadFromJson_isError md doc

theorem saveLoad_roundtrip_fails_witness :
    loadIsError (loadFromJson 8
      { genesis_hash := "h", all_triads := [coreGenesis.toDict] }) = true :=
  saveLoad_roundtrip_fails coreLedgerSample 8
    { genesis_hash := "h", all_triads := [coreGenesis.toDict] } rfl

/-! ### C9: transaction pool validation and deduplication -/

theorem validate_implies_amountPositive (tx : CoreTransaction)
    (h : validateTransaction tx = true) : txAmountPositive tx = true := by
  simp only [validateTransaction, Bool.and_eq_true] at h
  exact h.2

theorem addTransactionToPool_preserves (pool : List CoreTransaction)
    (tx : CoreTransaction) (h : poolOk pool) :
    poolOk (addTransactionToPool pool tx) := by
  unfold addTransactionToPool
  by_cases hv : ¬ validateTransaction tx = true
  · rw [if_pos hv]; exact h
  rw [if_neg hv]
  have hvt : validateTransaction tx = true := not_not.mp hv
  by_cases hdup : pool.any (fun t => t.tx_hash == tx.tx_hash) = true
  · rw [if_pos hdup]; exact h
  · rw [if_neg hdup]
    constructor
    · have hnotin : tx.tx_hash ∉ pool.map (·.tx_hash) := by
        intro hmem
        rcases List.mem_map.mp hmem with ⟨q, hq, hqe⟩
        exact hdup (List.any_eq_true.mpr ⟨q, hq, by simp [hqe]⟩)
      simp [List.nodup_append, h.1, hnotin]
    · intro u hu
      rcases List.mem_append.mp hu with hin | hin
      · exact h.2 u hin
      · have hu' : u = tx := by simpa using hin
        subst hu'
        exact validate_implies_amountPositive u hvt

theorem foldl_pool_ok (txs : List CoreTransaction) :
    ∀ pool, poolOk pool → poolOk (txs.foldl addTransactionToPool pool) := by
  induction txs with
  | nil => intro pool h; exact h
  | cons a rest ih =>
      intro pool h
      exact ih _ (addTransactionToPool_preserves pool a h)

/-- C9: starting from an empty pool, any sequence of submissions leaves the
pool with pairwise-distinct content hashes and only positive amounts;
submissions that fail validation (missing fields or non-positive amount) or
duplicate an already-queued hash leave the pool unchanged, and submitting the
same transaction twice queues exactly one copy. -/
theorem transactionPool_spec :
    (∀ txs : List CoreTransaction,
        ((txs.foldl addTransactionToPool []).map (·.tx_hash)).Nodup ∧
          ∀ tx ∈ txs.foldl addTransactionToPool [], txAmountPositive tx = true) ∧
    (∀ (pool : List CoreTransaction) (tx : CoreTransaction),
        validateTransaction tx = false → addTransactionToPool pool tx = pool) ∧
    (∀ (tx : CoreTransaction) (a : Int),
        tx.transaction_data.amount = some (some a) → a ≤ 0 →
        validateTransaction tx = false) ∧
    (∀ (pool : List CoreTransaction) (tx : CoreTransaction),
        pool.any (fun t => t.tx_hash == tx.tx_hash) = true →
        addTransactionToPool pool tx = pool) ∧
    (∀ tx : CoreTransaction, validateTransaction tx = true →
        ((addTransactionToPool (addTransactionToPool [] tx) tx).filter
            (fun t => t.tx_hash == tx.tx_hash)).length = 1) := by
  refine ⟨?_, ?_, ?_, ?_, ?_⟩
  · intro txs
    exact foldl_pool_ok txs [] ⟨by simp, by simp⟩
  · intro pool tx hv
    unfold addTransactionToPool
    rw [if_pos (by simp [hv])]
  · intro tx a hma hle
    unfold validateTransaction
    rw [hma]
    have h0 : decide ((0 : Int) < a) = false := by
      simp
      omega
    simp [Option.bind, h0]
  · intro pool tx hdup
    unfold addTransactionToPool
    by_cases hv : ¬ validateTransaction tx = true
    · rw [if_pos hv]
    · rw [if_neg hv, if_pos hdup]
  · intro tx hv
    have h1 : addTransactionToPool [] tx = [tx] := by
      unfold addTransactionToPool
      rw [if_neg (by simp [hv]), if_neg (by simp)]
      rfl
    rw [h1]
    have h2 : addTransactionToPool [tx] tx = [tx] := by
      unfold addTransactionToPool
      rw [if_neg (by simp [hv]), if_pos (by simp)]
    rw [h2]
    simp [List.filter]

theorem transactionPool_spec_witness :
    validateTransaction sampleZeroTx = false ∧
      ((addTransactionToPool (addTransactionToPool [] sampleCoreTx)
          sampleCoreTx).filter
        (fun t => t.tx_hash == sampleCoreTx.tx_hash)).length = 1 :=
  ⟨transactionPool_spec.2.2.1 sampleZeroTx 0 rfl (by decide),
   transactionPool_spec.2.2.2.2 sampleCoreTx (by decide)⟩

end SeirChain
